import Mathlib

/-!
Verification of the FRC-RAG query cache (`src/utils/query_cache.py`).

The Python class `QueryCache` is shallowly embedded as a Lean structure with
pure state-passing operations:

* Python `OrderedDict` is modelled as an association list in insertion order
  (head = oldest entry); `move_to_end`, item assignment, `del` and
  `popitem(last=False)` become the `od*` functions below.
* `time.time()` is passed explicitly as a rational `now` parameter; within one
  call every expiry check uses the same instant.
* The SHA-256 fingerprint is modelled as the injective pre-hash key
  `normalized-query ++ "|k=" ++ k` (the claims depend only on key equality,
  and SHA-256 is idealised as collision-free).
* Floating-point arithmetic is idealised as exact real arithmetic; cosine
  similarity keeps the source formula dot(a,b) / (sqrt(dot(a,a)) * sqrt(dot(b,b)))
  and fails on a length mismatch exactly where sklearn raises.
* Python exceptions (the sklearn dimension mismatch, and `move_to_end(None)`
  when no best candidate was recorded) are modelled with `Except`; `get`
  returns the mutated state alongside the outcome, as the Python object is
  mutated before an exception propagates.
* Payload dictionaries are association lists of `PyVal`; a `vref` value is a
  reference into an ambient heap of mutable lists, which is what `dict.copy()`
  shares between the stored entry and a returned response.
-/

/-- A Python value stored in a payload dictionary: booleans, strings, numbers,
or a reference to a mutable object on the heap. -/
inductive PyVal where
  | vbool (b : Bool)
  | vstr (s : String)
  | vnum (x : ℝ)
  | vref (a : Nat)

/-- A Python dict in insertion order. -/
abbrev PyDict := List (String × PyVal)

/-- Python `d[k] = v`: replace in place when the key exists, append otherwise. -/
def dictSet : PyDict → String → PyVal → PyDict
  | [], k, v => [(k, v)]
  | (k', v') :: t, k, v => if k' = k then (k, v) :: t else (k', v') :: dictSet t k v

/-- Python `d.get(k)` / `k in d` lookup. -/
def dictGet : PyDict → String → Option PyVal
  | [], _ => none
  | (k', v') :: t, k => if k' = k then some v' else dictGet t k

/-- The heap of mutable list objects that `vref` addresses point into
(addresses are indices). -/
abbrev Heap := List (List ℤ)

/-- Dereference an address on the heap. -/
def heapGet (h : Heap) (a : Nat) : List ℤ := h.getD a []

/-- The observable content of a payload under a heap: references are replaced
by the current content of the object they point to. -/
def observeDict (h : Heap) (d : PyDict) : List (String × (PyVal ⊕ List ℤ)) :=
  d.map fun p =>
    (p.1, match p.2 with
          | .vref a => .inr (heapGet h a)
          | v => .inl v)

/-- `OrderedDict` lookup (`k in d` then `d[k]`). -/
def odGet {α : Type} : List (String × α) → String → Option α
  | [], _ => none
  | (k', v) :: t, k => if k' = k then some v else odGet t k

/-- `OrderedDict` item assignment `d[k] = v`: replaces in place when present,
appends otherwise (keys are unique, so at most one binding is replaced). -/
def odSet {α : Type} : List (String × α) → String → α → List (String × α)
  | [], k, v => [(k, v)]
  | (k', v') :: t, k, v => if k' = k then (k, v) :: t else (k', v') :: odSet t k v

/-- `del d[k]`: removes the binding of `k` (keys are unique). -/
def odDel {α : Type} : List (String × α) → String → List (String × α)
  | [], _ => []
  | (k', v) :: t, k => if k' = k then odDel t k else (k', v) :: odDel t k

/-- `d.move_to_end(k)`: relocate the binding of `k` to the most-recent end.
The source only ever calls it with a present key (the `None` best-hash case is
modelled as an error before this point), so a missing key leaves the map
unchanged. -/
def odMoveToEnd {α : Type} (l : List (String × α)) (k : String) : List (String × α) :=
  match odGet l k with
  | none => l
  | some v => odDel l k ++ [(k, v)]

/-- The `self.stats` counter dictionary. -/
structure Stats where
  exact_hits : ℕ
  semantic_hits : ℕ
  misses : ℕ
  total_queries : ℕ
  evictions : ℕ
  ttl_expirations : ℕ
deriving Repr

/-- The zeroed counters installed by `__init__` and `reset_stats`. -/
def Stats.zero : Stats := ⟨0, 0, 0, 0, 0, 0⟩

/-- An exact-store entry `{'data': ..., 'timestamp': ..., 'query': ...}`. -/
structure ExactEntry where
  data : PyDict
  timestamp : ℚ
  query : String

/-- A semantic-store tuple `(embedding, data, timestamp, original_query)`. -/
structure SemEntry where
  embedding : List ℝ
  data : PyDict
  timestamp : ℚ
  query : String

/-- The `QueryCache` object state. -/
structure QueryCache where
  max_size : ℤ
  similarity_threshold : ℝ
  ttl_seconds : Option ℚ
  enable_semantic_cache : Bool
  exact_cache : List (String × ExactEntry)
  semantic_cache : List (String × SemEntry)
  stats : Stats

/-- `QueryCache.__init__`: stores the configuration as given (the source
performs no validation) and starts with empty stores and zeroed counters. -/
def QueryCache.init (max_size : ℤ) (similarity_threshold : ℝ)
    (ttl_seconds : Option ℚ) (enable_semantic_cache : Bool) : QueryCache :=
  ⟨max_size, similarity_threshold, ttl_seconds, enable_semantic_cache,
   [], [], Stats.zero⟩

/-- `_generate_query_hash`: lower-case, strip, append the `k` parameter.
SHA-256 of the combined key is modelled as the (injective) key itself. -/
def generateQueryHash (query : String) (k : ℤ) : String :=
  query.toLower.trim ++ "|k=" ++ toString k

/-- `_is_expired`: true when the entry's age strictly exceeds the TTL;
a `None` TTL never expires. -/
def isExpired (ttl : Option ℚ) (now timestamp : ℚ) : Bool :=
  match ttl with
  | none => false
  | some t => decide (now - timestamp > t)

/-- Combined occupancy of the two stores. -/
def QueryCache.occupancy (c : QueryCache) : ℕ :=
  c.exact_cache.length + c.semantic_cache.length

/-- One iteration of the `_ensure_cache_size` loop body: `_evict_oldest` on
whichever store is larger (ties go to the exact store), incrementing the
eviction counter only when something was actually removed. -/
def evictStep (c : QueryCache) : QueryCache :=
  if c.exact_cache.length ≥ c.semantic_cache.length then
    match c.exact_cache with
    | [] => c
    | _ :: t =>
      { c with exact_cache := t,
               stats := { c.stats with evictions := c.stats.evictions + 1 } }
  else
    match c.semantic_cache with
    | [] => c
    | _ :: t =>
      { c with semantic_cache := t,
               stats := { c.stats with evictions := c.stats.evictions + 1 } }

/-- The `while` loop of `_ensure_cache_size`, unrolled by its iteration count. -/
def ensureLoop : ℕ → QueryCache → QueryCache
  | 0, c => c
  | n + 1, c => ensureLoop n (evictStep c)

/-- `_ensure_cache_size`: the Python loop tests a local counter that starts at
the combined occupancy and is decremented unconditionally each iteration, so it
runs exactly `max(occupancy - max_size, 0)` times. -/
def ensureCacheSize (c : QueryCache) : QueryCache :=
  ensureLoop ((c.occupancy - c.max_size).toNat) c

/-- The failure modes of `get`: sklearn's dimension-mismatch error inside
`cosine_similarity`, and the `move_to_end(None)` key error raised when the
similarity threshold is met without any best candidate recorded. -/
inductive CacheErr where
  | dimMismatch
  | keyError
deriving Repr, DecidableEq

/-- Dot product of two embedding vectors (pairs beyond the shorter length are
dropped; the lengths are checked before this is used). -/
def dotList (a b : List ℝ) : ℝ := (List.zipWith (fun x y => x * y) a b).sum

/-- `sklearn.metrics.pairwise.cosine_similarity` on two row vectors: the
normalised dot product, raising on a length mismatch. -/
noncomputable def cosineSim (a b : List ℝ) : Except CacheErr ℝ :=
  if a.length = b.length then
    .ok (dotList a b / (Real.sqrt (dotList a a) * Real.sqrt (dotList b b)))
  else
    .error .dimMismatch

/-- `_create_cache_response`: shallow-copy the payload and annotate it with
provenance fields (the copy shares every nested reference with the original). -/
def createCacheResponse (data : PyDict) (cache_type : String)
    (similarity : Option ℝ) : PyDict :=
  let r := dictSet (dictSet data "_cache_hit" (.vbool true)) "_cache_type" (.vstr cache_type)
  match similarity with
  | some s => dictSet r "_cache_similarity" (.vnum s)
  | none => r

/-- The semantic scan loop of `get`: walk the semantic store in insertion
order, skip expired entries, and keep the best (similarity, match, hash)
triple, replacing it only on a strictly greater similarity. -/
noncomputable def scanLoop (ttl : Option ℚ) (qe : List ℝ) (now : ℚ) :
    List (String × SemEntry) → ℝ → Option (PyDict × String) →
    Except CacheErr (ℝ × Option (PyDict × String))
  | [], bestSim, best => .ok (bestSim, best)
  | (h, e) :: rest, bestSim, best =>
    if isExpired ttl now e.timestamp then
      scanLoop ttl qe now rest bestSim best
    else
      match cosineSim qe e.embedding with
      | .error err => .error err
      | .ok s =>
        if s > bestSim then scanLoop ttl qe now rest s (some (e.data, h))
        else scanLoop ttl qe now rest bestSim best

/-- The semantic half of `get`, entered after the exact store missed (or its
entry expired): scan for the best match, hit when the best similarity reaches
the threshold, otherwise count a miss. `move_to_end(None)` — reached when the
threshold is met with no recorded candidate — raises a key error. -/
noncomputable def semanticPhase (c : QueryCache) (query_embedding : Option (List ℝ))
    (now : ℚ) : QueryCache × Except CacheErr (Option PyDict) :=
  match query_embedding with
  | some qe =>
    if c.enable_semantic_cache then
      match scanLoop c.ttl_seconds qe now c.semantic_cache 0 none with
      | .error err => (c, .error err)
      | .ok (bestSim, best) =>
        if bestSim ≥ c.similarity_threshold then
          match best with
          | some (bestData, bestHash) =>
            ({ c with semantic_cache := odMoveToEnd c.semantic_cache bestHash,
                      stats := { c.stats with semantic_hits := c.stats.semantic_hits + 1 } },
             .ok (some (createCacheResponse bestData "semantic" (some bestSim))))
          | none => (c, .error .keyError)
        else
          ({ c with stats := { c.stats with misses := c.stats.misses + 1 } }, .ok none)
    else
      ({ c with stats := { c.stats with misses := c.stats.misses + 1 } }, .ok none)
  | none =>
    ({ c with stats := { c.stats with misses := c.stats.misses + 1 } }, .ok none)

/-- `QueryCache.get`: count the query, try the exact store (handling lazy
expiry), then fall through to the semantic phase. Returns the mutated state
together with the outcome (a hit, a miss, or a propagated exception). -/
noncomputable def QueryCache.get (c : QueryCache) (query : String) (k : ℤ)
    (query_embedding : Option (List ℝ)) (now : ℚ) :
    QueryCache × Except CacheErr (Option PyDict) :=
  let c1 : QueryCache :=
    { c with stats := { c.stats with total_queries := c.stats.total_queries + 1 } }
  let qh := generateQueryHash query k
  match odGet c1.exact_cache qh with
  | some entry =>
    if isExpired c1.ttl_seconds now entry.timestamp then
      let c2 : QueryCache :=
        { c1 with exact_cache := odDel c1.exact_cache qh,
                  stats := { c1.stats with ttl_expirations := c1.stats.ttl_expirations + 1 } }
      semanticPhase c2 query_embedding now
    else
      let c2 : QueryCache :=
        { c1 with exact_cache := odMoveToEnd c1.exact_cache qh,
                  stats := { c1.stats with exact_hits := c1.stats.exact_hits + 1 } }
      (c2, .ok (some (createCacheResponse entry.data "exact" none)))
  | none => semanticPhase c1 query_embedding now

/-- `QueryCache.set`: write the exact entry, dual-write the semantic tuple when
enabled and an embedding was supplied, then run the eviction pass. -/
def QueryCache.set (c : QueryCache) (query : String) (response_data : PyDict)
    (k : ℤ) (query_embedding : Option (List ℝ)) (now : ℚ) : QueryCache :=
  let qh := generateQueryHash query k
  let c1 : QueryCache :=
    { c with exact_cache := odMoveToEnd (odSet c.exact_cache qh ⟨response_data, now, query⟩) qh }
  let c2 : QueryCache :=
    match query_embedding with
    | some qe =>
      if c1.enable_semantic_cache then
        { c1 with semantic_cache :=
            odMoveToEnd (odSet c1.semantic_cache qh ⟨qe, response_data, now, query⟩) qh }
      else c1
    | none => c1
  ensureCacheSize c2

/-- Python's `round` (banker's rounding, half to even) on a rational. -/
def roundHalfEven (q : ℚ) : ℤ :=
  if q - ⌊q⌋ = 1 / 2 then (if Even ⌊q⌋ then ⌊q⌋ else ⌊q⌋ + 1) else round q

/-- `round(x, 2)`: round to two decimal places. -/
def round2 (q : ℚ) : ℚ := (roundHalfEven (q * 100) : ℚ) / 100

/-- The snapshot returned by `get_stats`. -/
structure StatsSnapshot where
  exact_hits : ℕ
  semantic_hits : ℕ
  misses : ℕ
  total_queries : ℕ
  evictions : ℕ
  ttl_expirations : ℕ
  total_hits : ℕ
  hit_rate_percent : ℚ
  exact_cache_size : ℕ
  semantic_cache_size : ℕ
  total_cache_size : ℕ

/-- `QueryCache.get_stats`: the raw counters plus derived totals, hit rate
(zero when no queries have been made) and store occupancies. -/
def QueryCache.get_stats (c : QueryCache) : StatsSnapshot :=
  let total_hits := c.stats.exact_hits + c.stats.semantic_hits
  let hit_rate : ℚ :=
    if c.stats.total_queries > 0 then
      (total_hits : ℚ) / (c.stats.total_queries : ℚ) * 100
    else 0
  { exact_hits := c.stats.exact_hits
    semantic_hits := c.stats.semantic_hits
    misses := c.stats.misses
    total_queries := c.stats.total_queries
    evictions := c.stats.evictions
    ttl_expirations := c.stats.ttl_expirations
    total_hits := total_hits
    hit_rate_percent := round2 hit_rate
    exact_cache_size := c.exact_cache.length
    semantic_cache_size := c.semantic_cache.length
    total_cache_size := c.exact_cache.length + c.semantic_cache.length }

/-- The configuration error the specification prescribes for construction. -/
inductive ConfigError where
  | invalidConfig
deriving Repr, DecidableEq

/-- The constructor as the specification words it ("a negative TTL or
non-positive `max_size` is a construction-time error, rejected immediately"):
stated here only to compare with the source's `__init__`, which never rejects. -/
def initSpec (max_size : ℤ) (similarity_threshold : ℝ) (ttl_seconds : Option ℚ)
    (enable_semantic_cache : Bool) : Except ConfigError QueryCache :=
  if max_size ≤ 0 then .error .invalidConfig
  else
    match ttl_seconds with
    | some t =>
      if t < 0 then .error .invalidConfig
      else .ok (QueryCache.init max_size similarity_threshold ttl_seconds enable_semantic_cache)
    | none => .ok (QueryCache.init max_size similarity_threshold ttl_seconds enable_semantic_cache)

/-! ### Concrete cache states used to instantiate the theorems -/

/-- A fresh cache with a comfortable budget and no TTL. -/
noncomputable def cacheFresh : QueryCache := QueryCache.init 10 (92 / 100) none true

/-- A budget-1 cache already holding one semantic entry: the next exact write
is immediately evicted again by the tie-breaking eviction pass. -/
noncomputable def cacheTight : QueryCache :=
  { max_size := 1, similarity_threshold := 92 / 100, ttl_seconds := none,
    enable_semantic_cache := true, exact_cache := [],
    semantic_cache := [("X", ⟨[1, 0], [], 0, "x"⟩)], stats := Stats.zero }

/-- A cache whose exact entry (written at time 0, TTL 10) is stale at time 20
while an unexpired, perfectly similar semantic entry was written at time 15. -/
noncomputable def cacheStale : QueryCache :=
  { max_size := 10, similarity_threshold := 1 / 2, ttl_seconds := some 10,
    enable_semantic_cache := true,
    exact_cache := [(generateQueryHash "a" 5, ⟨[("p", .vstr "old")], 0, "a"⟩)],
    semantic_cache := [("B", ⟨[1, 0], [("p", .vstr "new")], 15, "b"⟩)],
    stats := Stats.zero }

/-- Threshold 3/5 with one stored unit embedding whose cosine similarity to the
query `[1, 0]` is exactly 3/5: a hit exactly at the boundary. -/
noncomputable def cacheBoundary : QueryCache :=
  { max_size := 10, similarity_threshold := 3 / 5, ttl_seconds := none,
    enable_semantic_cache := true, exact_cache := [],
    semantic_cache := [("A", ⟨[3 / 5, 4 / 5], [("ans", .vstr "a")], 0, "qa"⟩)],
    stats := Stats.zero }

/-- Threshold 0 with one stored embedding orthogonal to the query `[1, 0]`. -/
noncomputable def cacheZeroThr : QueryCache :=
  { max_size := 10, similarity_threshold := 0, ttl_seconds := none,
    enable_semantic_cache := true, exact_cache := [],
    semantic_cache := [("A", ⟨[0, 1], [], 0, "qa"⟩)], stats := Stats.zero }

/-- Two semantic entries with identical embeddings: both have similarity 1 to
the query `[1, 0]`, and the older entry "A" is encountered first. -/
noncomputable def cacheTie : QueryCache :=
  { max_size := 10, similarity_threshold := 1 / 2, ttl_seconds := none,
    enable_semantic_cache := true, exact_cache := [],
    semantic_cache := [("A", ⟨[1, 0], [("ans", .vstr "A")], 0, "qa"⟩),
                       ("B", ⟨[1, 0], [("ans", .vstr "B")], 0, "qb"⟩)],
    stats := Stats.zero }

/-- One stored three-dimensional embedding, to be probed with a
two-dimensional query vector. -/
noncomputable def cacheDim : QueryCache :=
  { max_size := 10, similarity_threshold := 92 / 100, ttl_seconds := none,
    enable_semantic_cache := true, exact_cache := [],
    semantic_cache := [("A", ⟨[1, 0, 0], [], 0, "qa"⟩)], stats := Stats.zero }

/-- Threshold 0 and an empty semantic store. -/
noncomputable def cacheEmptyZeroThr : QueryCache := QueryCache.init 10 0 none true

/-- A zero-budget cache (`max_size = 0`). -/
noncomputable def cacheZeroBudget : QueryCache := QueryCache.init 0 (1 / 2) none true

/-- A cache that has answered two queries, one of them a hit. -/
noncomputable def cacheCounted : QueryCache :=
  { max_size := 10, similarity_threshold := 92 / 100, ttl_seconds := none,
    enable_semantic_cache := true, exact_cache := [], semantic_cache := [],
    stats := ⟨1, 0, 1, 2, 0, 0⟩ }

/-! ### Basic lemmas about the dictionary and ordered-map operations -/

theorem dictGet_dictSet_self (d : PyDict) (k : String) (v : PyVal) :
    dictGet (dictSet d k v) k = some v := by
  induction d with
  | nil => simp [dictSet, dictGet]
  | cons p t ih =>
    obtain ⟨k1, v1⟩ := p
    by_cases h : k1 = k <;> simp [dictSet, dictGet, h, ih]

theorem dictGet_dictSet_ne (d : PyDict) (k k1 : String) (v : PyVal) (h : k1 ≠ k) :
    dictGet (dictSet d k v) k1 = dictGet d k1 := by
  have h2 : ¬(k = k1) := fun hh => h hh.symm
  induction d with
  | nil => simp [dictSet, dictGet, h2]
  | cons p t ih =>
    obtain ⟨k2, v2⟩ := p
    by_cases h3 : k2 = k
    · subst h3
      simp [dictSet, dictGet, h2]
    · simp [dictSet, dictGet, h3, ih]

theorem dictGet_createCacheResponse_type (d : PyDict) (ct : String) (sim : Option ℝ) :
    dictGet (createCacheResponse d ct sim) "_cache_type" = some (.vstr ct) := by
  cases sim <;>
    simp [createCacheResponse, dictGet_dictSet_self, dictGet_dictSet_ne]

theorem dictGet_createCacheResponse_hit (d : PyDict) (ct : String) (sim : Option ℝ) :
    dictGet (createCacheResponse d ct sim) "_cache_hit" = some (.vbool true) := by
  cases sim <;>
    simp [createCacheResponse, dictGet_dictSet_self, dictGet_dictSet_ne]

theorem dictGet_createCacheResponse_other (d : PyDict) (ct : String) (sim : Option ℝ)
    (key : String) (h1 : key ≠ "_cache_hit") (h2 : key ≠ "_cache_type")
    (h3 : key ≠ "_cache_similarity") :
    dictGet (createCacheResponse d ct sim) key = dictGet d key := by
  cases sim <;>
    simp [createCacheResponse, dictGet_dictSet_ne _ _ _ _ h1,
          dictGet_dictSet_ne _ _ _ _ h2, dictGet_dictSet_ne _ _ _ _ h3]

theorem odGet_odDel_self {α : Type} (l : List (String × α)) (k : String) :
    odGet (odDel l k) k = none := by
  induction l with
  | nil => simp [odDel, odGet]
  | cons p t ih =>
    obtain ⟨k1, v1⟩ := p
    by_cases h : k1 = k <;> simp [odDel, odGet, h, ih]

theorem odGet_append {α : Type} (l1 l2 : List (String × α)) (k : String) :
    odGet (l1 ++ l2) k =
      match odGet l1 k with
      | some v => some v
      | none => odGet l2 k := by
  induction l1 with
  | nil => simp [odGet]
  | cons p t ih =>
    obtain ⟨k1, v1⟩ := p
    by_cases h : k1 = k <;> simp [odGet, h, ih]

theorem odGet_odMoveToEnd_self {α : Type} (l : List (String × α)) (k : String) (v : α)
    (h : odGet l k = some v) : odGet (odMoveToEnd l k) k = some v := by
  simp [odMoveToEnd, h, odGet_append, odGet_odDel_self, odGet]

/-! ### Occupancy of the eviction pass -/

theorem evictStep_occupancy_pos (c : QueryCache) (h : 0 < c.occupancy) :
    (evictStep c).occupancy = c.occupancy - 1 := by
  obtain ⟨ms, thr, ttl, en, ex, se, st⟩ := c
  cases ex with
  | nil =>
    cases se with
    | nil => simp [QueryCache.occupancy] at h
    | cons q u => simp [QueryCache.occupancy, evictStep]
  | cons p t =>
    cases se with
    | nil => simp [QueryCache.occupancy, evictStep]
    | cons q u =>
      by_cases hge : u.length + 1 ≤ t.length + 1
      · simp [QueryCache.occupancy, evictStep, hge]
        omega
      · simp [QueryCache.occupancy, evictStep, hge]

theorem evictStep_occupancy_zero (c : QueryCache) (h : c.occupancy = 0) :
    evictStep c = c := by
  obtain ⟨ms, thr, ttl, en, ex, se, st⟩ := c
  simp only [QueryCache.occupancy] at h
  have hx : ex = [] := List.eq_nil_of_length_eq_zero (by omega)
  have hs : se = [] := List.eq_nil_of_length_eq_zero (by omega)
  subst hx hs
  simp [evictStep]

theorem ensureLoop_occupancy (n : ℕ) : ∀ c : QueryCache,
    (ensureLoop n c).occupancy = c.occupancy - n := by
  induction n with
  | zero => intro c; simp [ensureLoop]
  | succ m ih =>
    intro c
    rw [ensureLoop, ih]
    rcases Nat.eq_zero_or_pos c.occupancy with h | h
    · rw [evictStep_occupancy_zero c h, h]
      omega
    · rw [evictStep_occupancy_pos c h]
      omega

theorem ensureCacheSize_occupancy_le (c : QueryCache) (h : 0 ≤ c.max_size) :
    ((ensureCacheSize c).occupancy : ℤ) ≤ c.max_size := by
  rw [ensureCacheSize, ensureLoop_occupancy]
  omega

/-! ### Configuration fields are untouched by eviction and by `set` -/

theorem evictStep_max_size (c : QueryCache) : (evictStep c).max_size = c.max_size := by
  unfold evictStep
  split
  · split <;> rfl
  · split <;> rfl

theorem evictStep_ttl_seconds (c : QueryCache) :
    (evictStep c).ttl_seconds = c.ttl_seconds := by
  unfold evictStep
  split
  · split <;> rfl
  · split <;> rfl

theorem ensureLoop_max_size (n : ℕ) : ∀ c : QueryCache,
    (ensureLoop n c).max_size = c.max_size := by
  induction n with
  | zero => intro c; rfl
  | succ m ih => intro c; rw [ensureLoop, ih, evictStep_max_size]

theorem ensureLoop_ttl_seconds (n : ℕ) : ∀ c : QueryCache,
    (ensureLoop n c).ttl_seconds = c.ttl_seconds := by
  induction n with
  | zero => intro c; rfl
  | succ m ih => intro c; rw [ensureLoop, ih, evictStep_ttl_seconds]

theorem set_ttl_seconds (c : QueryCache) (query : String) (p : PyDict) (k : ℤ)
    (emb : Option (List ℝ)) (now : ℚ) :
    (c.set query p k emb now).ttl_seconds = c.ttl_seconds := by
  simp only [QueryCache.set, ensureCacheSize, ensureLoop_ttl_seconds]
  cases emb with
  | none => rfl
  | some qe => by_cases hen : c.enable_semantic_cache = true <;> simp [hen]

theorem set_max_size (c : QueryCache) (query : String) (p : PyDict) (k : ℤ)
    (emb : Option (List ℝ)) (now : ℚ) :
    (c.set query p k emb now).max_size = c.max_size := by
  simp only [QueryCache.set, ensureCacheSize, ensureLoop_max_size]
  cases emb with
  | none => rfl
  | some qe => by_cases hen : c.enable_semantic_cache = true <;> simp [hen]

/-! ### The semantic phase: frame facts and outcome shape -/

theorem semanticPhase_spec (c : QueryCache) (emb : Option (List ℝ)) (now : ℚ) :
    (semanticPhase c emb now).1.exact_cache = c.exact_cache
    ∧ (semanticPhase c emb now).1.stats.total_queries = c.stats.total_queries
    ∧ (semanticPhase c emb now).1.stats.ttl_expirations = c.stats.ttl_expirations
    ∧ ∀ r, (semanticPhase c emb now).2 = .ok (some r) →
        dictGet r "_cache_type" = some (.vstr "semantic") := by
  cases emb with
  | none => exact ⟨rfl, rfl, rfl, by simp [semanticPhase]⟩
  | some qe =>
    simp only [semanticPhase]
    by_cases hen : c.enable_semantic_cache
    · rw [if_pos hen]
      rcases hs : scanLoop c.ttl_seconds qe now c.semantic_cache 0 none with err | pr
      · exact ⟨rfl, rfl, rfl, by simp⟩
      · obtain ⟨bs, best⟩ := pr
        dsimp only
        by_cases hge : bs ≥ c.similarity_threshold
        · rw [if_pos hge]
          cases best with
          | none => exact ⟨rfl, rfl, rfl, by simp⟩
          | some pr2 =>
            obtain ⟨bd, bh⟩ := pr2
            refine ⟨rfl, rfl, rfl, ?_⟩
            intro r hr
            simp only [Except.ok.injEq, Option.some.injEq] at hr
            rw [← hr]
            exact dictGet_createCacheResponse_type bd "semantic" (some bs)
        · rw [if_neg hge]
          exact ⟨rfl, rfl, rfl, by simp⟩
    · rw [if_neg hen]
      exact ⟨rfl, rfl, rfl, by simp⟩

theorem get_total_queries (c : QueryCache) (query : String) (k : ℤ)
    (emb : Option (List ℝ)) (now : ℚ) :
    (c.get query k emb now).1.stats.total_queries = c.stats.total_queries + 1 := by
  have hsem : ∀ d : QueryCache,
      (semanticPhase d emb now).1.stats.total_queries = d.stats.total_queries :=
    fun d => (semanticPhase_spec d emb now).2.1
  simp only [QueryCache.get]
  rcases hx : odGet c.exact_cache (generateQueryHash query k) with _ | entry
  · simp [hx, hsem]
  · simp only [hx]
    split
    · simp [hsem]
    · rfl

/-! ### Rounding facts -/

theorem round2_zero : round2 0 = 0 := by
  norm_num [round2, roundHalfEven]

theorem ensureCacheSize_self_bound (d : QueryCache) (h : 0 ≤ d.max_size) :
    ((ensureCacheSize d).occupancy : ℤ) ≤ (ensureCacheSize d).max_size := by
  unfold ensureCacheSize
  rw [ensureLoop_max_size, ensureLoop_occupancy]
  omega

/-! ### Claims about eviction, construction and statistics -/

/-- C1 (amended): for a nonnegative `max_size`, after every `set` the combined
occupancy of the two stores is at most `max_size`, restored by the eviction
pass that repeatedly drops the oldest entry of whichever store holds the
greater count, ties broken toward the exact store. (A negative `max_size`,
which the constructor accepts, breaks the bound — see the counterexample.) -/
theorem set_occupancy_le_max_size (c : QueryCache) (query : String) (p : PyDict)
    (k : ℤ) (emb : Option (List ℝ)) (now : ℚ) (h : 0 ≤ c.max_size) :
    (((c.set query p k emb now).occupancy : ℤ)) ≤ c.max_size := by
  rw [← set_max_size c query p k emb now]
  simp only [QueryCache.set]
  refine ensureCacheSize_self_bound _ ?_
  cases emb with
  | none => simpa using h
  | some qe =>
    by_cases hen : c.enable_semantic_cache = true <;> simp [hen] <;> exact h

/-- C1 witness: the amended bound at a concrete zero-budget cache. -/
theorem set_occupancy_le_max_size_witness :
    0 ≤ cacheZeroBudget.max_size ∧
      (((cacheZeroBudget.set "a" [] 5 none 0).occupancy : ℤ)) ≤ cacheZeroBudget.max_size :=
  ⟨by norm_num [cacheZeroBudget, QueryCache.init],
   set_occupancy_le_max_size cacheZeroBudget "a" [] 5 none 0
     (by norm_num [cacheZeroBudget, QueryCache.init])⟩

/-- C1 counterexample: with `max_size = -1` (accepted by the constructor), a
`set` on an empty cache leaves occupancy 0, which still exceeds `max_size`,
so the claimed bound fails as stated for every constructible cache. -/
theorem set_occupancy_exceeds_negative_budget :
    ¬ ((((QueryCache.init (-1) (92 / 100) none true).set "a" [] 5 none 0).occupancy : ℤ) ≤
        ((QueryCache.init (-1) (92 / 100) none true).set "a" [] 5 none 0).max_size) := by
  norm_num [QueryCache.init, QueryCache.set, ensureCacheSize, QueryCache.occupancy,
            ensureLoop, evictStep, odSet, odMoveToEnd, odGet, odDel, Stats.zero]

/-- C3 (amended): construction never fails; `__init__` stores any
configuration verbatim — including a negative TTL and a non-positive
`max_size` — with empty stores and zeroed counters. -/
theorem init_stores_config_verbatim (ms : ℤ) (thr : ℝ) (ttl : Option ℚ) (en : Bool) :
    (QueryCache.init ms thr ttl en).max_size = ms
    ∧ (QueryCache.init ms thr ttl en).similarity_threshold = thr
    ∧ (QueryCache.init ms thr ttl en).ttl_seconds = ttl
    ∧ (QueryCache.init ms thr ttl en).enable_semantic_cache = en
    ∧ (QueryCache.init ms thr ttl en).exact_cache = []
    ∧ (QueryCache.init ms thr ttl en).semantic_cache = []
    ∧ (QueryCache.init ms thr ttl en).stats = Stats.zero :=
  ⟨rfl, rfl, rfl, rfl, rfl, rfl, rfl⟩

/-- C3 counterexample: the source constructor accepts `max_size = -1` and
`ttl_seconds = -5` and returns a working cache, while the specification's
constructor (`initSpec`) rejects exactly these values; construction never
raises a configuration error. -/
theorem init_accepts_invalid_config :
    QueryCache.init (-1) (92 / 100) (some (-5)) true =
      ⟨-1, 92 / 100, some (-5), true, [], [], Stats.zero⟩
    ∧ initSpec (-1) (92 / 100) (some (-5)) true = .error .invalidConfig :=
  ⟨rfl, by norm_num [initSpec]⟩

/-- C9: every `get` increments `total_queries` by exactly one regardless of
outcome, and the statistics snapshot reports `total_hits` as the sum of exact
and semantic hits and `hit_rate_percent` as `total_hits / total_queries * 100`
rounded to two decimals, zero when no queries have been made. -/
theorem stats_accounting (c : QueryCache) (query : String) (k : ℤ)
    (emb : Option (List ℝ)) (now : ℚ) :
    (c.get query k emb now).1.stats.total_queries = c.stats.total_queries + 1
    ∧ c.get_stats.total_hits = c.stats.exact_hits + c.stats.semantic_hits
    ∧ (c.stats.total_queries = 0 → c.get_stats.hit_rate_percent = 0)
    ∧ (0 < c.stats.total_queries → c.get_stats.hit_rate_percent =
        round2 (((c.stats.exact_hits + c.stats.semantic_hits : ℕ) : ℚ) /
          (c.stats.total_queries : ℚ) * 100)) := by
  refine ⟨get_total_queries c query k emb now, rfl, ?_, ?_⟩
  · intro h0
    simp [QueryCache.get_stats, h0, round2_zero]
  · intro hpos
    simp [QueryCache.get_stats, hpos]

/-- C9 witness: after two queries with one exact hit, the snapshot reports
one total hit and a 50 percent hit rate. -/
theorem stats_accounting_witness :
    cacheCounted.get_stats.total_hits = 1 ∧
      cacheCounted.get_stats.hit_rate_percent = 50 := by
  obtain ⟨-, h2, -, h4⟩ := stats_accounting cacheCounted "q" 5 none 0
  constructor
  · rw [h2]
    norm_num [cacheCounted]
  · rw [h4 (by norm_num [cacheCounted])]
    norm_num [cacheCounted, round2, roundHalfEven]

/-! ### The exact-store round trip -/

theorem dictGet_createCacheResponse_none_other (d : PyDict) (ct : String) (key : String)
    (h1 : key ≠ "_cache_hit") (h2 : key ≠ "_cache_type") :
    dictGet (createCacheResponse d ct none) key = dictGet d key := by
  simp [createCacheResponse, dictGet_dictSet_ne _ _ _ _ h1, dictGet_dictSet_ne _ _ _ _ h2]

theorem get_after_set_exact (c : QueryCache) (query : String) (p : PyDict) (k : ℤ)
    (now : ℚ) (httl : ∀ t, c.ttl_seconds = some t → 0 ≤ t)
    (hsurv : odGet (c.set query p k none now).exact_cache (generateQueryHash query k) =
      some ⟨p, now, query⟩) :
    ((c.set query p k none now).get query k none now).2 =
      .ok (some (createCacheResponse p "exact" none))
    ∧ ((c.set query p k none now).get query k none now).1.exact_cache =
        odMoveToEnd (c.set query p k none now).exact_cache (generateQueryHash query k) := by
  have hexp : isExpired (c.set query p k none now).ttl_seconds now now = false := by
    rw [set_ttl_seconds]
    cases hc : c.ttl_seconds with
    | none => rfl
    | some t =>
      have ht := httl t hc
      simp [isExpired]
      linarith
  constructor <;> simp [QueryCache.get, hsurv, hexp]

/-- C2 (amended): when the TTL is unset or nonnegative and the post-insertion
eviction pass did not evict the freshly written entry, `set(q, payload, k)`
immediately followed by `get(q, k)` returns the original payload annotated
with the cache-hit flag and cache type "exact" (all other keys unchanged),
rather than a miss. (Eviction can remove the fresh entry — see the
counterexample.) -/
theorem set_get_roundtrip_exact (c : QueryCache) (query : String) (p : PyDict)
    (k : ℤ) (now : ℚ) (httl : ∀ t, c.ttl_seconds = some t → 0 ≤ t)
    (hsurv : odGet (c.set query p k none now).exact_cache (generateQueryHash query k) =
      some ⟨p, now, query⟩) :
    ((c.set query p k none now).get query k none now).2 =
      .ok (some (createCacheResponse p "exact" none))
    ∧ dictGet (createCacheResponse p "exact" none) "_cache_hit" = some (.vbool true)
    ∧ dictGet (createCacheResponse p "exact" none) "_cache_type" = some (.vstr "exact")
    ∧ ∀ key, key ≠ "_cache_hit" → key ≠ "_cache_type" →
        dictGet (createCacheResponse p "exact" none) key = dictGet p key :=
  ⟨(get_after_set_exact c query p k now httl hsurv).1,
   dictGet_createCacheResponse_hit p "exact" none,
   dictGet_createCacheResponse_type p "exact" none,
   fun key h1 h2 => dictGet_createCacheResponse_none_other p "exact" key h1 h2⟩

/-- C2 witness: the round trip on a fresh roomy cache. -/
theorem set_get_roundtrip_exact_witness :
    ((cacheFresh.set "a" [("x", .vstr "v")] 5 none 0).get "a" 5 none 0).2 =
      .ok (some (createCacheResponse [("x", .vstr "v")] "exact" none)) := by
  refine (set_get_roundtrip_exact cacheFresh "a" [("x", .vstr "v")] 5 0 ?_ ?_).1
  · intro t ht
    simp [cacheFresh, QueryCache.init] at ht
  · norm_num [cacheFresh, QueryCache.init, QueryCache.set, ensureCacheSize,
              QueryCache.occupancy, odSet, odMoveToEnd, odGet, odDel, ensureLoop,
              Stats.zero]

/-- C2 counterexample: on a budget-1 cache already holding one semantic entry,
the post-`set` eviction pass (tie broken toward the exact store) immediately
evicts the fresh exact entry, so the very next `get` of the same query and `k`
is a miss — the round trip fails as universally stated. -/
theorem set_get_roundtrip_evicted :
    ((cacheTight.set "a" [("x", .vstr "v")] 5 none 0).get "a" 5 none 0).2 = .ok none := by
  norm_num [cacheTight, QueryCache.set, QueryCache.get, ensureCacheSize,
            QueryCache.occupancy, odSet, odMoveToEnd, odGet, odDel, ensureLoop,
            evictStep, Stats.zero, isExpired, semanticPhase]

/-! ### Lazy expiry of the exact store -/

theorem get_expired_exact (c : QueryCache) (query : String) (k : ℤ)
    (emb : Option (List ℝ)) (now : ℚ) (entry : ExactEntry)
    (hfound : odGet c.exact_cache (generateQueryHash query k) = some entry)
    (hexp : isExpired c.ttl_seconds now entry.timestamp = true) :
    c.get query k emb now =
      semanticPhase
        { c with exact_cache := odDel c.exact_cache (generateQueryHash query k),
                 stats := { c.stats with
                            total_queries := c.stats.total_queries + 1,
                            ttl_expirations := c.stats.ttl_expirations + 1 } }
        emb now := by
  simp [QueryCache.get, hfound, hexp]

/-- C8 (amended): on a `get` whose fingerprint is present in the exact store
with an entry older than the TTL, the entry is removed from the exact store
and `ttl_expirations` increments by exactly one; the exact path then reports a
miss and the call falls through to the semantic path, so the overall result is
either a miss or a semantic hit — never an exact hit. (The unqualified "the
call reports a miss" fails when the semantic path hits — see the
counterexample.) -/
theorem exact_expiry_fallthrough (c : QueryCache) (query : String) (k : ℤ)
    (emb : Option (List ℝ)) (now : ℚ) (entry : ExactEntry)
    (hfound : odGet c.exact_cache (generateQueryHash query k) = some entry)
    (hexp : isExpired c.ttl_seconds now entry.timestamp = true) :
    odGet (c.get query k emb now).1.exact_cache (generateQueryHash query k) = none
    ∧ (c.get query k emb now).1.stats.ttl_expirations = c.stats.ttl_expirations + 1
    ∧ ∀ r, (c.get query k emb now).2 = .ok (some r) →
        dictGet r "_cache_type" = some (.vstr "semantic") := by
  rw [get_expired_exact c query k emb now entry hfound hexp]
  refine ⟨?_, ?_, (semanticPhase_spec _ emb now).2.2.2⟩
  · rw [(semanticPhase_spec _ emb now).1]
    simpa using odGet_odDel_self c.exact_cache (generateQueryHash query k)
  · rw [(semanticPhase_spec _ emb now).2.2.1]

/-- C8 witness: the expired exact entry of `cacheStale` is removed and counted
when queried without an embedding. -/
theorem exact_expiry_fallthrough_witness :
    odGet (cacheStale.get "a" 5 none 20).1.exact_cache (generateQueryHash "a" 5) = none
    ∧ (cacheStale.get "a" 5 none 20).1.stats.ttl_expirations =
        cacheStale.stats.ttl_expirations + 1 := by
  have hf : odGet cacheStale.exact_cache (generateQueryHash "a" 5) =
      some ⟨[("p", .vstr "old")], 0, "a"⟩ := by
    simp [cacheStale, odGet]
  have he : isExpired cacheStale.ttl_seconds 20
      (ExactEntry.mk [("p", .vstr "old")] 0 "a").timestamp = true := by
    norm_num [cacheStale, isExpired]
  obtain ⟨h1, h2, -⟩ := exact_expiry_fallthrough cacheStale "a" 5 none 20 _ hf he
  exact ⟨h1, h2⟩

/-- C8 counterexample: at `cacheStale`, a `get` that expires the stale exact
entry (removal plus counter increment) still returns a semantic hit from the
fresh similar entry, so "the call reports a miss" is false as stated. -/
theorem exact_expiry_semantic_hit :
    (cacheStale.get "a" 5 (some [1, 0]) 20).2 =
      .ok (some (createCacheResponse [("p", .vstr "new")] "semantic" (some 1)))
    ∧ odGet (cacheStale.get "a" 5 (some [1, 0]) 20).1.exact_cache
        (generateQueryHash "a" 5) = none
    ∧ (cacheStale.get "a" 5 (some [1, 0]) 20).1.stats.ttl_expirations = 1 := by
  have hcs : cosineSim [(1 : ℝ), 0] [1, 0] = .ok 1 := by simp [cosineSim, dotList]
  refine ⟨?_, ?_, ?_⟩ <;>
    norm_num [cacheStale, QueryCache.get, semanticPhase, scanLoop, isExpired,
              odGet, odDel, odMoveToEnd, Stats.zero, hcs]

/-! ### Returned payloads are top-level copies with shared nested references -/

/-- C7 (amended): the payload returned by an exact cache hit is a top-level
shallow copy of the stored payload annotated with provenance metadata — the
stored entry keeps exactly the original payload, unpolluted by the
annotations — but every nested mutable reference is shared between the
returned copy and the stored entry, so in-place mutation of a nested object
reachable from the returned copy is visible in the stored entry (see the
counterexample); only top-level rebinding of the returned copy leaves the
stored entry unaffected. -/
theorem response_shallow_copy (c : QueryCache) (query : String) (p : PyDict)
    (k : ℤ) (now : ℚ) (httl : ∀ t, c.ttl_seconds = some t → 0 ≤ t)
    (hsurv : odGet (c.set query p k none now).exact_cache (generateQueryHash query k) =
      some ⟨p, now, query⟩) :
    ((c.set query p k none now).get query k none now).2 =
      .ok (some (createCacheResponse p "exact" none))
    ∧ odGet ((c.set query p k none now).get query k none now).1.exact_cache
        (generateQueryHash query k) = some ⟨p, now, query⟩
    ∧ ∀ key a, key ≠ "_cache_hit" → key ≠ "_cache_type" →
        dictGet p key = some (.vref a) →
        dictGet (createCacheResponse p "exact" none) key = some (.vref a) := by
  obtain ⟨h1, h2⟩ := get_after_set_exact c query p k now httl hsurv
  refine ⟨h1, ?_, ?_⟩
  · rw [h2]
    exact odGet_odMoveToEnd_self _ _ _ hsurv
  · intro key a hk1 hk2 hp
    rw [dictGet_createCacheResponse_none_other p "exact" key hk1 hk2]
    exact hp

/-- C7 counterexample: after a round trip the returned payload and the entry
still stored in the exact cache both hold the reference `vref 0` at key
"sources". Mutating the referenced object — the heap goes from `[[1]]` to
`[[1, 2]]`, a mutation reachable from the returned copy — changes the
observable content of the stored entry, so the returned payload is not an
independent copy. -/
theorem response_nested_alias_mutation :
    ((cacheFresh.set "q" [("sources", .vref 0)] 5 none 0).get "q" 5 none 0).2 =
      .ok (some [("sources", .vref 0), ("_cache_hit", .vbool true),
                 ("_cache_type", .vstr "exact")])
    ∧ (odGet ((cacheFresh.set "q" [("sources", .vref 0)] 5 none 0).get "q" 5 none 0).1.exact_cache
        (generateQueryHash "q" 5)).map ExactEntry.data = some [("sources", .vref 0)]
    ∧ observeDict [[1, 2]] [("sources", .vref 0)] ≠
        observeDict [[1]] [("sources", .vref 0)] := by
  refine ⟨?_, ?_, ?_⟩
  · norm_num [cacheFresh, QueryCache.init, QueryCache.set, QueryCache.get,
              ensureCacheSize, QueryCache.occupancy, odSet, odMoveToEnd, odGet,
              odDel, ensureLoop, Stats.zero, isExpired, createCacheResponse, dictSet]
    rw [if_neg (by decide), if_neg (by decide)]
  · norm_num [cacheFresh, QueryCache.init, QueryCache.set, QueryCache.get,
              ensureCacheSize, QueryCache.occupancy, odSet, odMoveToEnd, odGet,
              odDel, ensureLoop, Stats.zero, isExpired]
  · simp [observeDict, heapGet]

/-- C7 witness: the amended shallow-copy statement at a concrete payload with
one nested reference. -/
theorem response_shallow_copy_witness :
    ((cacheFresh.set "q" [("sources", .vref 0)] 5 none 0).get "q" 5 none 0).2 =
      .ok (some (createCacheResponse [("sources", .vref 0)] "exact" none))
    ∧ odGet ((cacheFresh.set "q" [("sources", .vref 0)] 5 none 0).get "q" 5 none 0).1.exact_cache
        (generateQueryHash "q" 5) = some ⟨[("sources", .vref 0)], 0, "q"⟩ := by
  have httl : ∀ t, cacheFresh.ttl_seconds = some t → (0 : ℚ) ≤ t := by
    intro t ht
    simp [cacheFresh, QueryCache.init] at ht
  have hsurv : odGet (cacheFresh.set "q" [("sources", .vref 0)] 5 none 0).exact_cache
      (generateQueryHash "q" 5) = some ⟨[("sources", .vref 0)], 0, "q"⟩ := by
    norm_num [cacheFresh, QueryCache.init, QueryCache.set, ensureCacheSize,
              QueryCache.occupancy, odSet, odMoveToEnd, odGet, odDel, ensureLoop,
              Stats.zero]
  obtain ⟨h1, h2, -⟩ :=
    response_shallow_copy cacheFresh "q" [("sources", .vref 0)] 5 0 httl hsurv
  exact ⟨h1, h2⟩

/-! ### Properties of the semantic scan loop -/

theorem cosineSim_error_eq (a b : List ℝ) (err : CacheErr)
    (h : cosineSim a b = .error err) : err = .dimMismatch := by
  unfold cosineSim at h
  split at h
  · simp at h
  · simp at h
    exact h.symm

theorem scan_mono (ttl : Option ℚ) (qe : List ℝ) (now : ℚ) :
    ∀ (l : List (String × SemEntry)) (b : ℝ) (best : Option (PyDict × String))
      (b2 : ℝ) (best2 : Option (PyDict × String)),
      scanLoop ttl qe now l b best = .ok (b2, best2) → b ≤ b2 := by
  intro l
  induction l with
  | nil =>
    intro b best b2 best2 hrun
    simp [scanLoop] at hrun
    exact le_of_eq hrun.1
  | cons p rest ih =>
    obtain ⟨hk, e⟩ := p
    intro b best b2 best2 hrun
    simp only [scanLoop] at hrun
    by_cases hx : isExpired ttl now e.timestamp = true
    · rw [if_pos hx] at hrun
      exact ih _ _ _ _ hrun
    · rw [if_neg hx] at hrun
      rcases hcs : cosineSim qe e.embedding with err | s
      · rw [hcs] at hrun
        simp at hrun
      · rw [hcs] at hrun
        dsimp only at hrun
        by_cases hgt : s > b
        · rw [if_pos hgt] at hrun
          have := ih _ _ _ _ hrun
          linarith
        · rw [if_neg hgt] at hrun
          exact ih _ _ _ _ hrun

theorem scan_some (ttl : Option ℚ) (qe : List ℝ) (now : ℚ) :
    ∀ (l : List (String × SemEntry)) (b : ℝ) (x : PyDict × String)
      (b2 : ℝ) (best2 : Option (PyDict × String)),
      scanLoop ttl qe now l b (some x) = .ok (b2, best2) → best2 ≠ none := by
  intro l
  induction l with
  | nil =>
    intro b x b2 best2 hrun
    simp [scanLoop] at hrun
    rw [← hrun.2]
    simp
  | cons p rest ih =>
    obtain ⟨hk, e⟩ := p
    intro b x b2 best2 hrun
    simp only [scanLoop] at hrun
    by_cases hx : isExpired ttl now e.timestamp = true
    · rw [if_pos hx] at hrun
      exact ih _ _ _ _ hrun
    · rw [if_neg hx] at hrun
      rcases hcs : cosineSim qe e.embedding with err | s
      · rw [hcs] at hrun
        simp at hrun
      · rw [hcs] at hrun
        dsimp only at hrun
        by_cases hgt : s > b
        · rw [if_pos hgt] at hrun
          exact ih _ _ _ _ hrun
        · rw [if_neg hgt] at hrun
          exact ih _ _ _ _ hrun

theorem scan_none_val (ttl : Option ℚ) (qe : List ℝ) (now : ℚ) :
    ∀ (l : List (String × SemEntry)) (b : ℝ) (b2 : ℝ),
      scanLoop ttl qe now l b none = .ok (b2, none) → b2 = b := by
  intro l
  induction l with
  | nil =>
    intro b b2 hrun
    simp [scanLoop] at hrun
    exact hrun.symm
  | cons p rest ih =>
    obtain ⟨hk, e⟩ := p
    intro b b2 hrun
    simp only [scanLoop] at hrun
    by_cases hx : isExpired ttl now e.timestamp = true
    · rw [if_pos hx] at hrun
      exact ih _ _ hrun
    · rw [if_neg hx] at hrun
      rcases hcs : cosineSim qe e.embedding with err | s
      · rw [hcs] at hrun
        simp at hrun
      · rw [hcs] at hrun
        dsimp only at hrun
        by_cases hgt : s > b
        · rw [if_pos hgt] at hrun
          exact absurd rfl (scan_some ttl qe now rest s (e.data, hk) b2 none hrun)
        · rw [if_neg hgt] at hrun
          exact ih _ _ hrun

theorem scan_attained (ttl : Option ℚ) (qe : List ℝ) (now : ℚ) (M : ℝ)
    (h0 : String) (e0 : SemEntry)
    (hx0 : isExpired ttl now e0.timestamp = false)
    (hs0 : cosineSim qe e0.embedding = .ok M) :
    ∀ (l : List (String × SemEntry)) (b : ℝ) (best : Option (PyDict × String))
      (b2 : ℝ) (best2 : Option (PyDict × String)),
      (h0, e0) ∈ l → scanLoop ttl qe now l b best = .ok (b2, best2) → M ≤ b2 := by
  intro l
  induction l with
  | nil =>
    intro b best b2 best2 hmem
    simp at hmem
  | cons p rest ih =>
    obtain ⟨hk, e⟩ := p
    intro b best b2 best2 hmem hrun
    simp only [scanLoop] at hrun
    rcases List.mem_cons.mp hmem with hhd | htl
    · have hke : hk = h0 ∧ e = e0 := by
        have := hhd
        simp [Prod.ext_iff] at this
        exact ⟨this.1.symm, this.2.symm⟩
      obtain ⟨rfl, rfl⟩ := hke
      rw [if_neg (by rw [hx0]; simp)] at hrun
      rw [hs0] at hrun
      dsimp only at hrun
      by_cases hgt : M > b
      · rw [if_pos hgt] at hrun
        exact scan_mono ttl qe now rest M _ b2 best2 hrun
      · rw [if_neg hgt] at hrun
        have hb := scan_mono ttl qe now rest b best b2 best2 hrun
        push_neg at hgt
        linarith
    · by_cases hx : isExpired ttl now e.timestamp = true
      · rw [if_pos hx] at hrun
        exact ih _ _ _ _ htl hrun
      · rw [if_neg hx] at hrun
        rcases hcs : cosineSim qe e.embedding with err | s
        · rw [hcs] at hrun
          simp at hrun
        · rw [hcs] at hrun
          dsimp only at hrun
          by_cases hgt : s > b
          · rw [if_pos hgt] at hrun
            exact ih _ _ _ _ htl hrun
          · rw [if_neg hgt] at hrun
            exact ih _ _ _ _ htl hrun

theorem scan_lt_ex (ttl : Option ℚ) (qe : List ℝ) (now : ℚ) (U : ℝ) :
    ∀ (l : List (String × SemEntry)) (b : ℝ) (best : Option (PyDict × String)),
      (∀ p ∈ l, isExpired ttl now p.2.timestamp = false →
        ∃ s, cosineSim qe p.2.embedding = .ok s ∧ s < U) →
      b < U →
      ∃ b2 best2, scanLoop ttl qe now l b best = .ok (b2, best2) ∧ b2 < U := by
  intro l
  induction l with
  | nil =>
    intro b best _ hb
    exact ⟨b, best, by simp [scanLoop], hb⟩
  | cons p rest ih =>
    obtain ⟨hk, e⟩ := p
    intro b best hall hb
    by_cases hx : isExpired ttl now e.timestamp = true
    · obtain ⟨b2, best2, hrun, hlt⟩ :=
        ih b best (fun q hq => hall q (List.mem_cons_of_mem _ hq)) hb
      exact ⟨b2, best2, by simp only [scanLoop]; rw [if_pos hx]; exact hrun, hlt⟩
    · obtain ⟨s, hcs, hsU⟩ :=
        hall (hk, e) (List.mem_cons_self _ _) (Bool.not_eq_true _ ▸ hx)
      by_cases hgt : s > b
      · obtain ⟨b2, best2, hrun, hlt⟩ :=
          ih s (some (e.data, hk)) (fun q hq => hall q (List.mem_cons_of_mem _ hq)) hsU
        refine ⟨b2, best2, ?_, hlt⟩
        simp only [scanLoop]
        rw [if_neg hx, hcs]
        dsimp only
        rw [if_pos hgt]
        exact hrun
      · obtain ⟨b2, best2, hrun, hlt⟩ :=
          ih b best (fun q hq => hall q (List.mem_cons_of_mem _ hq)) hb
        refine ⟨b2, best2, ?_, hlt⟩
        simp only [scanLoop]
        rw [if_neg hx, hcs]
        dsimp only
        rw [if_neg hgt]
        exact hrun

theorem scan_stay (ttl : Option ℚ) (qe : List ℝ) (now : ℚ) :
    ∀ (l : List (String × SemEntry)) (b : ℝ) (best : Option (PyDict × String)),
      (∀ p ∈ l, isExpired ttl now p.2.timestamp = false →
        ∃ s, cosineSim qe p.2.embedding = .ok s ∧ s ≤ b) →
      scanLoop ttl qe now l b best = .ok (b, best) := by
  intro l
  induction l with
  | nil => intro b best _; simp [scanLoop]
  | cons p rest ih =>
    obtain ⟨hk, e⟩ := p
    intro b best hall
    by_cases hx : isExpired ttl now e.timestamp = true
    · simp only [scanLoop]
      rw [if_pos hx]
      exact ih b best (fun q hq => hall q (List.mem_cons_of_mem _ hq))
    · obtain ⟨s, hcs, hsb⟩ :=
        hall (hk, e) (List.mem_cons_self _ _) (Bool.not_eq_true _ ▸ hx)
      simp only [scanLoop]
      rw [if_neg hx, hcs]
      dsimp only
      rw [if_neg (not_lt.mpr hsb)]
      exact ih b best (fun q hq => hall q (List.mem_cons_of_mem _ hq))

theorem scan_append (ttl : Option ℚ) (qe : List ℝ) (now : ℚ) :
    ∀ (l1 l2 : List (String × SemEntry)) (b : ℝ) (best : Option (PyDict × String)),
      scanLoop ttl qe now (l1 ++ l2) b best =
        match scanLoop ttl qe now l1 b best with
        | .error err => .error err
        | .ok (b1, s1) => scanLoop ttl qe now l2 b1 s1 := by
  intro l1
  induction l1 with
  | nil => intro l2 b best; simp [scanLoop]
  | cons p rest ih =>
    obtain ⟨hk, e⟩ := p
    intro l2 b best
    simp only [List.cons_append, scanLoop]
    by_cases hx : isExpired ttl now e.timestamp = true
    · rw [if_pos hx, if_pos hx]
      exact ih l2 b best
    · rw [if_neg hx, if_neg hx]
      rcases hcs : cosineSim qe e.embedding with err | s
      · rfl
      · dsimp only
        by_cases hgt : s > b
        · rw [if_pos hgt, if_pos hgt]
          exact ih l2 s (some (e.data, hk))
        · rw [if_neg hgt, if_neg hgt]
          exact ih l2 b best

theorem scan_mismatch (ttl : Option ℚ) (qe : List ℝ) (now : ℚ) :
    ∀ (l : List (String × SemEntry)) (b : ℝ) (best : Option (PyDict × String)),
      (∃ p ∈ l, isExpired ttl now p.2.timestamp = false ∧
        ¬(qe.length = p.2.embedding.length)) →
      scanLoop ttl qe now l b best = .error .dimMismatch := by
  intro l
  induction l with
  | nil =>
    intro b best hbad
    simp at hbad
  | cons p rest ih =>
    obtain ⟨hk, e⟩ := p
    intro b best hbad
    obtain ⟨q, hq, hqx, hqlen⟩ := hbad
    rcases List.mem_cons.mp hq with hhd | htl
    · subst hhd
      simp only [scanLoop]
      rw [if_neg (by rw [hqx]; simp)]
      have : cosineSim qe e.embedding = .error .dimMismatch := by
        unfold cosineSim
        rw [if_neg hqlen]
      rw [this]
    · by_cases hx : isExpired ttl now e.timestamp = true
      · simp only [scanLoop]
        rw [if_pos hx]
        exact ih b best ⟨q, htl, hqx, hqlen⟩
      · simp only [scanLoop]
        rw [if_neg hx]
        rcases hcs : cosineSim qe e.embedding with err | s
        · rw [cosineSim_error_eq qe e.embedding err hcs]
        · dsimp only
          by_cases hgt : s > b
          · rw [if_pos hgt]
            exact ih s (some (e.data, hk)) ⟨q, htl, hqx, hqlen⟩
          · rw [if_neg hgt]
            exact ih b best ⟨q, htl, hqx, hqlen⟩

theorem scan_ok_ex (ttl : Option ℚ) (qe : List ℝ) (now : ℚ) :
    ∀ (l : List (String × SemEntry)) (b : ℝ) (best : Option (PyDict × String)),
      (∀ p ∈ l, isExpired ttl now p.2.timestamp = false →
        ∃ s, cosineSim qe p.2.embedding = .ok s) →
      ∃ b2 best2, scanLoop ttl qe now l b best = .ok (b2, best2) := by
  intro l
  induction l with
  | nil => intro b best _; exact ⟨b, best, by simp [scanLoop]⟩
  | cons p rest ih =>
    obtain ⟨hk, e⟩ := p
    intro b best hall
    by_cases hx : isExpired ttl now e.timestamp = true
    · obtain ⟨b2, best2, hrun⟩ := ih b best (fun q hq => hall q (List.mem_cons_of_mem _ hq))
      exact ⟨b2, best2, by simp only [scanLoop]; rw [if_pos hx]; exact hrun⟩
    · obtain ⟨s, hcs⟩ := hall (hk, e) (List.mem_cons_self _ _) (Bool.not_eq_true _ ▸ hx)
      by_cases hgt : s > b
      · obtain ⟨b2, best2, hrun⟩ :=
          ih s (some (e.data, hk)) (fun q hq => hall q (List.mem_cons_of_mem _ hq))
        refine ⟨b2, best2, ?_⟩
        simp only [scanLoop]
        rw [if_neg hx, hcs]
        dsimp only
        rw [if_pos hgt]
        exact hrun
      · obtain ⟨b2, best2, hrun⟩ :=
          ih b best (fun q hq => hall q (List.mem_cons_of_mem _ hq))
        refine ⟨b2, best2, ?_⟩
        simp only [scanLoop]
        rw [if_neg hx, hcs]
        dsimp only
        rw [if_neg hgt]
        exact hrun

theorem get_miss_exact (c : QueryCache) (query : String) (k : ℤ)
    (emb : Option (List ℝ)) (now : ℚ)
    (hmiss : odGet c.exact_cache (generateQueryHash query k) = none) :
    c.get query k emb now =
      semanticPhase
        { c with stats := { c.stats with total_queries := c.stats.total_queries + 1 } }
        emb now := by
  simp [QueryCache.get, hmiss]

/-! ### Outcomes of the semantic phase, by scan result -/

theorem semanticPhase_hit (c : QueryCache) (qe : List ℝ) (now : ℚ)
    (b2 : ℝ) (bd : PyDict) (bh : String)
    (hen : c.enable_semantic_cache = true)
    (hscan : scanLoop c.ttl_seconds qe now c.semantic_cache 0 none = .ok (b2, some (bd, bh)))
    (hge : c.similarity_threshold ≤ b2) :
    semanticPhase c (some qe) now =
      ({ c with semantic_cache := odMoveToEnd c.semantic_cache bh,
                stats := { c.stats with semantic_hits := c.stats.semantic_hits + 1 } },
       .ok (some (createCacheResponse bd "semantic" (some b2)))) := by
  simp only [semanticPhase]
  rw [if_pos hen, hscan]
  dsimp only
  rw [if_pos hge]

theorem semanticPhase_miss (c : QueryCache) (qe : List ℝ) (now : ℚ)
    (b2 : ℝ) (best2 : Option (PyDict × String))
    (hen : c.enable_semantic_cache = true)
    (hscan : scanLoop c.ttl_seconds qe now c.semantic_cache 0 none = .ok (b2, best2))
    (hlt : b2 < c.similarity_threshold) :
    semanticPhase c (some qe) now =
      ({ c with stats := { c.stats with misses := c.stats.misses + 1 } }, .ok none) := by
  simp only [semanticPhase]
  rw [if_pos hen, hscan]
  dsimp only
  rw [if_neg (not_le.mpr hlt)]

theorem semanticPhase_keyerr (c : QueryCache) (qe : List ℝ) (now : ℚ) (b2 : ℝ)
    (hen : c.enable_semantic_cache = true)
    (hscan : scanLoop c.ttl_seconds qe now c.semantic_cache 0 none = .ok (b2, none))
    (hge : c.similarity_threshold ≤ b2) :
    semanticPhase c (some qe) now = (c, .error .keyError) := by
  simp only [semanticPhase]
  rw [if_pos hen, hscan]
  dsimp only
  rw [if_pos hge]

theorem semanticPhase_err (c : QueryCache) (qe : List ℝ) (now : ℚ) (err : CacheErr)
    (hen : c.enable_semantic_cache = true)
    (hscan : scanLoop c.ttl_seconds qe now c.semantic_cache 0 none = .error err) :
    semanticPhase c (some qe) now = (c, .error err) := by
  simp only [semanticPhase]
  rw [if_pos hen, hscan]

/-! ### Claims about the semantic lookup -/

/-- C4 (amended): for a strictly positive similarity threshold, a semantic
lookup whose maximum cosine similarity over unexpired stored entries is `M`
hits exactly when `M` reaches the threshold: `threshold ≤ M` (including
equality) yields a semantic hit, and `M < threshold` yields a miss. (At
`threshold ≤ 0` — permitted by the configuration surface — the boundary case
raises instead of hitting; see the counterexample.) -/
theorem semantic_threshold_boundary (c : QueryCache) (query : String) (k : ℤ)
    (qe : List ℝ) (now : ℚ) (M : ℝ)
    (hen : c.enable_semantic_cache = true)
    (hmiss : odGet c.exact_cache (generateQueryHash query k) = none)
    (hthr : 0 < c.similarity_threshold)
    (hub : ∀ p ∈ c.semantic_cache, isExpired c.ttl_seconds now p.2.timestamp = false →
      ∃ s, cosineSim qe p.2.embedding = .ok s ∧ s ≤ M)
    (hat : ∃ p ∈ c.semantic_cache, isExpired c.ttl_seconds now p.2.timestamp = false ∧
      cosineSim qe p.2.embedding = .ok M) :
    (c.similarity_threshold ≤ M →
      ∃ r, (c.get query k (some qe) now).2 = .ok (some r) ∧
        dictGet r "_cache_type" = some (.vstr "semantic"))
    ∧ (M < c.similarity_threshold → (c.get query k (some qe) now).2 = .ok none) := by
  constructor
  · intro hge
    obtain ⟨p0, hp0, hxp0, hsp0⟩ := hat
    obtain ⟨b2, best2, hscan⟩ :=
      scan_ok_ex c.ttl_seconds qe now c.semantic_cache 0 none
        (fun q hq hqx => (hub q hq hqx).imp fun s hs => hs.1)
    have hMb : M ≤ b2 :=
      scan_attained c.ttl_seconds qe now M p0.1 p0.2 hxp0 hsp0
        c.semantic_cache 0 none b2 best2 (by simpa using hp0) hscan
    have hthrb : c.similarity_threshold ≤ b2 := le_trans hge hMb
    have hbpos : (0 : ℝ) < b2 := lt_of_lt_of_le hthr hthrb
    cases best2 with
    | none =>
      exfalso
      have hz := scan_none_val c.ttl_seconds qe now c.semantic_cache 0 b2 hscan
      rw [hz] at hbpos
      exact lt_irrefl 0 hbpos
    | some pr =>
      obtain ⟨bd, bh⟩ := pr
      rw [get_miss_exact c query k (some qe) now hmiss,
          semanticPhase_hit
            { c with stats := { c.stats with total_queries := c.stats.total_queries + 1 } }
            qe now b2 bd bh hen hscan hthrb]
      exact ⟨createCacheResponse bd "semantic" (some b2), rfl,
        dictGet_createCacheResponse_type bd "semantic" (some b2)⟩
  · intro hlt
    obtain ⟨b2, best2, hscan, hb2⟩ :=
      scan_lt_ex c.ttl_seconds qe now c.similarity_threshold c.semantic_cache 0 none
        (fun q hq hqx => (hub q hq hqx).imp fun s hs => ⟨hs.1, lt_of_le_of_lt hs.2 hlt⟩)
        hthr
    rw [get_miss_exact c query k (some qe) now hmiss,
        semanticPhase_miss
          { c with stats := { c.stats with total_queries := c.stats.total_queries + 1 } }
          qe now b2 best2 hen hscan hb2]

/-- C4 witness: at threshold 3/5 with one stored unit embedding of similarity
exactly 3/5 to the query, the boundary lookup is a semantic hit. -/
theorem semantic_threshold_boundary_witness :
    ∃ r, (cacheBoundary.get "q" 5 (some [1, 0]) 0).2 = .ok (some r) ∧
      dictGet r "_cache_type" = some (.vstr "semantic") := by
  have hcs : cosineSim [(1 : ℝ), 0] [3 / 5, 4 / 5] = .ok (3 / 5) := by
    simp [cosineSim, dotList]
    norm_num
  refine (semantic_threshold_boundary cacheBoundary "q" 5 [1, 0] 0 (3 / 5)
    rfl rfl ?_ ?_ ?_).1 ?_
  · norm_num [cacheBoundary]
  · intro p hp hx
    simp only [cacheBoundary] at hp
    simp at hp
    subst hp
    exact ⟨3 / 5, hcs, le_refl _⟩
  · exact ⟨("A", ⟨[3 / 5, 4 / 5], [("ans", .vstr "a")], 0, "qa"⟩),
      by simp [cacheBoundary], rfl, hcs⟩
  · norm_num [cacheBoundary]

/-- C4 counterexample: with threshold 0 the single stored unexpired entry has
cosine similarity exactly 0 to the query, so its maximum similarity reaches
the threshold and the claim demands a hit; the code instead raises the
`move_to_end(None)` key error, because the scan only records a candidate on a
strictly positive improvement over the initial best of 0. -/
theorem semantic_threshold_zero_raises :
    (cacheZeroThr.get "q" 5 (some [1, 0]) 0).2 = .error .keyError
    ∧ cosineSim [(1 : ℝ), 0] [0, 1] = .ok 0
    ∧ cacheZeroThr.similarity_threshold = 0 := by
  have hcs : cosineSim [(1 : ℝ), 0] [0, 1] = .ok 0 := by simp [cosineSim, dotList]
  refine ⟨?_, hcs, rfl⟩
  norm_num [cacheZeroThr, QueryCache.get, semanticPhase, scanLoop, isExpired,
            odGet, Stats.zero, hcs]

/-- C5: during the semantic scan a later entry replaces the current best only
on a strictly greater similarity, so among entries tied at the maximum the one
encountered first in iteration order (oldest by insertion) is returned and
promoted to most-recently-used. -/
theorem semantic_tie_first_wins (c : QueryCache) (query : String) (k : ℤ)
    (qe : List ℝ) (now : ℚ) (M : ℝ) (l1 l2 : List (String × SemEntry))
    (h0 : String) (e0 : SemEntry)
    (hen : c.enable_semantic_cache = true)
    (hmiss : odGet c.exact_cache (generateQueryHash query k) = none)
    (hsplit : c.semantic_cache = l1 ++ (h0, e0) :: l2)
    (hx0 : isExpired c.ttl_seconds now e0.timestamp = false)
    (hs0 : cosineSim qe e0.embedding = .ok M)
    (hpos : 0 < M)
    (hthr : c.similarity_threshold ≤ M)
    (hl1 : ∀ p ∈ l1, isExpired c.ttl_seconds now p.2.timestamp = false →
      ∃ s, cosineSim qe p.2.embedding = .ok s ∧ s < M)
    (hl2 : ∀ p ∈ l2, isExpired c.ttl_seconds now p.2.timestamp = false →
      ∃ s, cosineSim qe p.2.embedding = .ok s ∧ s ≤ M) :
    (c.get query k (some qe) now).2 =
      .ok (some (createCacheResponse e0.data "semantic" (some M)))
    ∧ (c.get query k (some qe) now).1.semantic_cache = odMoveToEnd c.semantic_cache h0
    ∧ (c.get query k (some qe) now).1.stats.semantic_hits = c.stats.semantic_hits + 1
    ∧ ∀ (rest : List (String × SemEntry)) (b : ℝ) (best : Option (PyDict × String))
        (hk : String) (e : SemEntry) (s : ℝ),
        isExpired c.ttl_seconds now e.timestamp = false →
        cosineSim qe e.embedding = .ok s → s ≤ b →
        scanLoop c.ttl_seconds qe now ((hk, e) :: rest) b best =
          scanLoop c.ttl_seconds qe now rest b best := by
  have hscan : scanLoop c.ttl_seconds qe now c.semantic_cache 0 none =
      .ok (M, some (e0.data, h0)) := by
    rw [hsplit, scan_append]
    obtain ⟨b1, best1, hrun1, hb1⟩ :=
      scan_lt_ex c.ttl_seconds qe now M l1 0 none hl1 hpos
    rw [hrun1]
    simp only [scanLoop]
    rw [if_neg (by rw [hx0]; simp), hs0]
    dsimp only
    rw [if_pos hb1]
    exact scan_stay c.ttl_seconds qe now l2 M (some (e0.data, h0)) hl2
  rw [get_miss_exact c query k (some qe) now hmiss,
      semanticPhase_hit
        { c with stats := { c.stats with total_queries := c.stats.total_queries + 1 } }
        qe now M e0.data h0 hen hscan hthr]
  refine ⟨rfl, rfl, rfl, ?_⟩
  intro rest b best hk e s hxe hce hsle
  simp only [scanLoop]
  rw [if_neg (by rw [hxe]; simp), hce]
  dsimp only
  rw [if_neg (not_lt.mpr hsle)]

/-- C5 witness: two stored entries both at similarity 1; the older entry "A"
is returned and promoted. -/
theorem semantic_tie_first_wins_witness :
    (cacheTie.get "q" 5 (some [1, 0]) 0).2 =
      .ok (some (createCacheResponse [("ans", .vstr "A")] "semantic" (some 1)))
    ∧ (cacheTie.get "q" 5 (some [1, 0]) 0).1.semantic_cache =
        odMoveToEnd cacheTie.semantic_cache "A"
    ∧ (cacheTie.get "q" 5 (some [1, 0]) 0).1.stats.semantic_hits =
        cacheTie.stats.semantic_hits + 1 := by
  have hcs : cosineSim [(1 : ℝ), 0] [1, 0] = .ok 1 := by simp [cosineSim, dotList]
  obtain ⟨h1, h2, h3, -⟩ :=
    semantic_tie_first_wins cacheTie "q" 5 [1, 0] 0 1 []
      [("B", ⟨[1, 0], [("ans", .vstr "B")], 0, "qb"⟩)]
      "A" ⟨[1, 0], [("ans", .vstr "A")], 0, "qa"⟩
      rfl rfl rfl rfl hcs (by norm_num) (by norm_num [cacheTie]) (by simp)
      (by intro p hp hx
          simp at hp
          subst hp
          exact ⟨1, hcs, le_refl 1⟩)
  exact ⟨h1, h2, h3⟩

/-- C6: a semantic lookup whose query embedding differs in length from some
unexpired stored embedding fails with the dimension-mismatch error, which
propagates out of `get` instead of being treated as zero similarity. -/
theorem dim_mismatch_propagates (c : QueryCache) (query : String) (k : ℤ)
    (qe : List ℝ) (now : ℚ)
    (hen : c.enable_semantic_cache = true)
    (hmiss : odGet c.exact_cache (generateQueryHash query k) = none)
    (hbad : ∃ p ∈ c.semantic_cache, isExpired c.ttl_seconds now p.2.timestamp = false ∧
      ¬(qe.length = p.2.embedding.length)) :
    (c.get query k (some qe) now).2 = .error .dimMismatch := by
  rw [get_miss_exact c query k (some qe) now hmiss,
      semanticPhase_err
        { c with stats := { c.stats with total_queries := c.stats.total_queries + 1 } }
        qe now .dimMismatch hen
        (scan_mismatch c.ttl_seconds qe now c.semantic_cache 0 none hbad)]

/-- C6 witness: a 2-component query against a stored 3-component embedding
fails with the dimension-mismatch error. -/
theorem dim_mismatch_propagates_witness :
    (cacheDim.get "q" 5 (some [1, 0]) 0).2 = .error .dimMismatch := by
  refine dim_mismatch_propagates cacheDim "q" 5 [1, 0] 0 rfl rfl
    ⟨("A", ⟨[1, 0, 0], [], 0, "qa"⟩), by simp [cacheDim], rfl, by norm_num⟩

/-- C10: with semantic caching enabled, an embedding supplied, and a
non-positive similarity threshold, a `get` in which no stored unexpired
semantic entry has similarity strictly greater than 0 (for example, an empty
semantic store) raises the `move_to_end(None)` key error instead of returning
a miss, because the threshold check passes while no best candidate was ever
recorded. -/
theorem threshold_nonpositive_raises (c : QueryCache) (query : String) (k : ℤ)
    (qe : List ℝ) (now : ℚ)
    (hen : c.enable_semantic_cache = true)
    (hthr : c.similarity_threshold ≤ 0)
    (hmiss : odGet c.exact_cache (generateQueryHash query k) = none)
    (hall : ∀ p ∈ c.semantic_cache, isExpired c.ttl_seconds now p.2.timestamp = false →
      ∃ s, cosineSim qe p.2.embedding = .ok s ∧ s ≤ 0) :
    (c.get query k (some qe) now).2 = .error .keyError := by
  rw [get_miss_exact c query k (some qe) now hmiss,
      semanticPhase_keyerr
        { c with stats := { c.stats with total_queries := c.stats.total_queries + 1 } }
        qe now 0 hen
        (scan_stay c.ttl_seconds qe now c.semantic_cache 0 none hall) hthr]

/-- C10 witness: threshold 0 with an empty semantic store raises the key
error on any embedding-carrying `get`. -/
theorem threshold_nonpositive_raises_witness :
    (cacheEmptyZeroThr.get "q" 5 (some [1, 0]) 0).2 = .error .keyError := by
  refine threshold_nonpositive_raises cacheEmptyZeroThr "q" 5 [1, 0] 0 rfl ?_ rfl ?_
  · norm_num [cacheEmptyZeroThr, QueryCache.init]
  · simp [cacheEmptyZeroThr, QueryCache.init]
